import Mathlib

/-!
# Verification of the freddie metadata-and-tempo extraction pipeline

Shallow embedding of `src/backend/metadata_extractor.py` (and, for the
equivalence claim, of the duplicate `src/metadata_extractor.py`).

External library calls (mutagen container parsing, librosa decoding and
tempo tracking, filesystem writes) are modelled as inputs: an `AudioFile`
carries the outcome each library call would produce for that file, and the
embedded functions are translated line by line from the Python source over
those outcomes.  Python exceptions become `Except` values; a Python dict
(which preserves insertion order and is only ever assigned distinct keys
here) becomes an association list in insertion order.
-/

set_option autoImplicit false

namespace Freddie

/-- JSON-representable field values stored in a metadata record. -/
inductive Value where
  | vstr (s : String)
  | vfloat (q : ℚ)
  | vint (n : ℤ)
  | vbool (b : Bool)
deriving DecidableEq, Repr

/-- A metadata record: a Python dict with string keys in insertion order. -/
abbrev Record := List (String × Value)

/-- Structural properties read from the container's audio-stream header
(`audio.info.length / bitrate / sample_rate / channels`). -/
structure StreamInfo where
  length : ℚ
  bitrate : ℤ
  sample_rate : ℤ
  channels : ℤ
deriving DecidableEq, Repr

/-- An MP4 tag value as mutagen exposes it: either a Python list (each
element shown by its `str` form) or a scalar. -/
inductive TagVal where
  | vlist (l : List String)
  | vscalar (s : String)
deriving DecidableEq, Repr

instance exceptDecEq {ε α : Type} [DecidableEq ε] [DecidableEq α] :
    DecidableEq (Except ε α) := fun x y =>
  match x, y with
  | .error a, .error b =>
    if h : a = b then .isTrue (by rw [h]) else .isFalse (by simp [h])
  | .error _, .ok _ => .isFalse (by simp)
  | .ok _, .error _ => .isFalse (by simp)
  | .ok a, .ok b =>
    if h : a = b then .isTrue (by rw [h]) else .isFalse (by simp [h])

/-- Model of one file on disk: its path, its basename, and the outcome of
each external-library call the pipeline may make on it.  `mp3parse` is the
combined outcome of `MP3(file_path)` + `ID3(file_path)` (header info and the
ID3 tag dictionary, each tag shown by its `str` form); `mp4parse` is the
outcome of `MP4(file_path)`; `decode` is the outcome of the librosa
decode-and-tempo-track step (`.error` = some exception was raised,
`.ok t` = the backend produced the tempo estimate `t`). -/
structure AudioFile where
  path : String
  name : String
  mp3parse : Except String (StreamInfo × List (String × String))
  mp4parse : Except String (StreamInfo × List (String × TagVal))
  decode : Except String ℚ
deriving DecidableEq, Repr

/-- Association-list lookup, the model of `metadata[key]` / `key in metadata`. -/
def getVal : List (String × Value) → String → Option Value
  | [], _ => none
  | (k, v) :: rest, key => if k = key then some v else getVal rest key

/-- Association-list lookup for tag dictionaries. -/
def assocFind {α : Type} : List (String × α) → String → Option α
  | [], _ => none
  | (k, v) :: rest, key => if k = key then some v else assocFind rest key

/-- Python's `round` on a rational: round half to even. -/
def pyRound (q : ℚ) : ℤ :=
  if q - q.floor < 1/2 then q.floor
  else if 1/2 < q - q.floor then q.floor + 1
  else if q.floor % 2 = 0 then q.floor else q.floor + 1

/-- Python `str.lower()`, character by character (ASCII case folding). -/
def strLower (s : String) : String :=
  String.mk (s.data.map Char.toLower)

/-- Python `str.endswith(post)`. -/
def strEndsWith (s post : String) : Bool :=
  post.data.isSuffixOf s.data

/-- Python `str.split(sep)` for a one-character separator. -/
def splitOnCharAux (sep : Char) : List Char → List Char → List String
  | [], acc => [String.mk acc.reverse]
  | c :: cs, acc =>
    if c = sep then String.mk acc.reverse :: splitOnCharAux sep cs []
    else splitOnCharAux sep cs (c :: acc)

/-- Python `str.split(sep)` for a one-character separator. -/
def splitOnChar (s : String) (sep : Char) : List String :=
  splitOnCharAux sep s.data []

/-- Number of leading separator characters, for `normpath`. -/
def leadingSlashCount : List Char → Nat
  | '/' :: rest => leadingSlashCount rest + 1
  | _ => 0

/-- `calculate_bpm`: decode up to 60 s with librosa, tempo-track, and
`return round(tempo)`; any exception is caught and `None` is returned. -/
def calculate_bpm (f : AudioFile) : Option ℤ :=
  match f.decode with
  | .error _ => none
  | .ok tempo => some (pyRound tempo)

/-- The fixed ordered ID3 tag-probing table of `extract_mp3_metadata`. -/
def mp3TagMapping : List (String × List String) :=
  [("title", ["TIT2"]),
   ("artist", ["TPE1"]),
   ("album", ["TALB"]),
   ("year", ["TDRC", "TYER"]),
   ("genre", ["TCON"]),
   ("track_number", ["TRCK"]),
   ("bpm", ["TBPM"]),
   ("key", ["TKEY"]),
   ("composer", ["TCOM"]),
   ("publisher", ["TPUB"]),
   ("initial_key", ["TKEY"])]

/-- The fixed ordered MP4 tag-probing table of `extract_mp4_metadata`. -/
def mp4TagMapping : List (String × List String) :=
  [("title", ["©nam"]),
   ("artist", ["©ART"]),
   ("album", ["©alb"]),
   ("year", ["©day"]),
   ("genre", ["©gen", "gnre"]),
   ("track_number", ["trkn"]),
   ("bpm", ["tmpo"]),
   ("composer", ["©wrt"]),
   ("comment", ["©cmt"]),
   ("copyright", ["cprt"]),
   ("album_artist", ["aART"])]

/-- `for tag_id in tag_ids: if tag_id in tags: ... break` — first present
identifier wins; yields that identifier's value. -/
def probeTag {α : Type} (tags : List (String × α)) : List String → Option α
  | [] => none
  | tagId :: rest =>
    match assocFind tags tagId with
    | some v => some v
    | none => probeTag tags rest

/-- The ID3 tag-probing loop: for each `(key, tag_ids)` of the mapping in
order, store `str(tags[tag_id])` for the first `tag_id` present. -/
def addTagFields (tags : List (String × String)) :
    List (String × List String) → Record
  | [] => []
  | (key, tagIds) :: rest =>
    match probeTag tags tagIds with
    | some v => (key, .vstr v) :: addTagFields tags rest
    | none => addTagFields tags rest

/-- `str(value[0])` / `str(value)` on an MP4 tag value; an empty list makes
`value[0]` raise `IndexError("list index out of range")`.  (The source has an
`if tag_id == "tmpo" and key == "bpm"` split whose two branches are the same
expression `str(value[0])`.) -/
def renderTagVal : TagVal → Except String String
  | .vlist [] => .error "list index out of range"
  | .vlist (v :: _) => .ok v
  | .vscalar v => .ok v

/-- The MP4 tag-probing loop; an `IndexError` while indexing a list value
aborts the whole loop (it propagates to the enclosing `try`). -/
def addMp4TagFields (tags : List (String × TagVal)) :
    List (String × List String) → Except String Record
  | [] => .ok []
  | (key, tagIds) :: rest =>
    match probeTag tags tagIds with
    | none => addMp4TagFields tags rest
    | some tv =>
      match renderTagVal tv with
      | .error e => .error e
      | .ok v => (addMp4TagFields tags rest).map (fun md => (key, .vstr v) :: md)

/-- The value the MP4 probing stores for one logical field, when it stores
one: first present identifier, then first list element (stringified). -/
def probedMp4Value (tags : List (String × TagVal)) (tagIds : List String) :
    Option String :=
  match probeTag tags tagIds with
  | none => none
  | some tv =>
    match renderTagVal tv with
    | .ok v => some v
    | .error _ => none

/-- The structural fields every successful MP3 parse contributes. -/
def mp3BaseFields (f : AudioFile) (info : StreamInfo) : Record :=
  [("file_path", .vstr f.path),
   ("file_type", .vstr "mp3"),
   ("duration", .vfloat info.length),
   ("bitrate", .vint info.bitrate),
   ("sample_rate", .vint info.sample_rate),
   ("channels", .vint info.channels)]

/-- The structural fields every successful MP4 parse contributes. -/
def mp4BaseFields (f : AudioFile) (info : StreamInfo) : Record :=
  [("file_path", .vstr f.path),
   ("file_type", .vstr "mp4"),
   ("duration", .vfloat info.length),
   ("bitrate", .vint info.bitrate),
   ("sample_rate", .vint info.sample_rate),
   ("channels", .vint info.channels)]

/-- The record returned when the `try` block raises: only `file_path` and
`error`. -/
def errRecord (path msg : String) : Record :=
  [("file_path", .vstr path), ("error", .vstr msg)]

/-- The BPM-completion step shared by both extractors: if `"bpm" not in
metadata and calculate_missing_bpm`, call `calculate_bpm`; `if bpm:`
(Python truthiness: `None` and `0` are falsy) store its string form and set
`bpm_calculated = True`. -/
def completeBpm (f : AudioFile) (calculate_missing_bpm : Bool)
    (metadata : Record) : Record :=
  if (getVal metadata "bpm").isNone && calculate_missing_bpm then
    match calculate_bpm f with
    | none => metadata
    | some bpm =>
      if bpm ≠ 0 then
        metadata ++ [("bpm", .vstr (toString bpm)), ("bpm_calculated", .vbool true)]
      else metadata
  else metadata

/-- `extract_mp3_metadata` of `src/backend/metadata_extractor.py`. -/
def extract_mp3_metadata (f : AudioFile) (calculate_missing_bpm : Bool) : Record :=
  match f.mp3parse with
  | .error e => errRecord f.path e
  | .ok (info, tags) =>
    completeBpm f calculate_missing_bpm
      (mp3BaseFields f info ++ addTagFields tags mp3TagMapping)

/-- `extract_mp4_metadata` of `src/backend/metadata_extractor.py`. -/
def extract_mp4_metadata (f : AudioFile) (calculate_missing_bpm : Bool) : Record :=
  match f.mp4parse with
  | .error e => errRecord f.path e
  | .ok (info, tags) =>
    match addMp4TagFields tags mp4TagMapping with
    | .error e => errRecord f.path e
    | .ok tagFields =>
      completeBpm f calculate_missing_bpm (mp4BaseFields f info ++ tagFields)

/-- `file.lower().endswith(".mp3")`. -/
def isMp3Name (name : String) : Bool :=
  strEndsWith (strLower name) ".mp3"

/-- `file.lower().endswith((".mp3", ".mp4", ".m4a"))`. -/
def isEligible (name : String) : Bool :=
  strEndsWith (strLower name) ".mp3" || strEndsWith (strLower name) ".mp4" ||
    strEndsWith (strLower name) ".m4a"

/-- The directory tree as `os.walk` discovers it: validity of the root and
the regular files in discovery order. -/
structure Directory where
  isValid : Bool
  files : List AudioFile
deriving Repr

/-- `scan_directory` of `src/backend/metadata_extractor.py`.  `sys.exit(1)`
on an invalid root is the `.error` outcome; otherwise one walk collects
`(file_path, is_mp3)` pairs for eligible names, an empty collection returns
the empty results list, and each pair is dispatched to the matching
extractor, results in discovery order.  (The source first normalizes the
root with `os.path.normpath`; a `Directory` here already models the tree
that the normalized root resolves to, so that step has no separate model
effect.) -/
def scan_directory (d : Directory) (calculate_missing_bpm : Bool) :
    Except Unit (List Record) :=
  if d.isValid = false then .error () else
  let audio_files :=
    (d.files.filter (fun f => isEligible f.name)).map
      (fun f => (f, isMp3Name f.name))
  if audio_files.length = 0 then .ok [] else
  .ok (audio_files.map (fun p =>
    if p.2 then extract_mp3_metadata p.1 calculate_missing_bpm
    else extract_mp4_metadata p.1 calculate_missing_bpm))

/-- `posixpath.normpath`, as `os.path.normpath` applies it on POSIX:
`initial_slashes` is 2 exactly when the path starts with exactly two
separators, otherwise 1 when it is absolute; `.` and empty components are
dropped; `..` pops a previous component unless anchored. -/
def normpath (path : String) : String :=
  if path = "" then "." else
  let lead := leadingSlashCount path.data
  let initialSlashes : Nat :=
    if lead = 0 then 0 else if lead = 2 then 2 else 1
  let comps := splitOnChar path '/'
  let newComps := comps.foldl (fun acc comp =>
    if comp = "" || comp = "." then acc
    else if comp ≠ ".." || (initialSlashes = 0 && acc.isEmpty) ||
        (!acc.isEmpty && acc.getLastD "" = "..") then acc ++ [comp]
    else if !acc.isEmpty then acc.dropLast
    else acc) []
  let joined := String.intercalate "/" newComps
  let result := String.mk (List.replicate initialSlashes '/') ++ joined
  if result = "" then "." else result

/-- `os.path.basename` on POSIX: everything after the last separator. -/
def basename (p : String) : String :=
  (splitOnChar p '/').getLastD ""

/-- The aggregate document `save_metadata` serializes. -/
structure Report where
  timestamp : String
  system : String
  file_count : ℕ
  metadata : List Record
deriving DecidableEq, Repr

/-- Assemble the output document from the collected records and the
run context. -/
def mkReport (ts sys : String) (metadata : List Record) : Report :=
  { timestamp := ts, system := sys, file_count := metadata.length,
    metadata := metadata }

/-- Which `open(path, "w")` + `json.dump` attempts succeed. -/
structure WriteFS where
  writeOk : String → Bool

/-- Result of `save_metadata`: every write target attempted, in order, and
either the path the report landed at or the uncaught fallback failure. -/
structure SaveTrace where
  attempts : List String
  result : Except String (String × Report)
deriving Repr

/-- `save_metadata`: normalize the target, attempt it; on any exception,
attempt `basename(output_file)` in the current directory — that second
attempt is outside any `try`, so its failure propagates (is fatal). -/
def save_metadata (metadata : List Record) (output_file : String)
    (fs : WriteFS) (ts sys : String) : SaveTrace :=
  let target := normpath output_file
  if fs.writeOk target then
    { attempts := [target], result := .ok (target, mkReport ts sys metadata) }
  else
    let fallback_file := basename target
    if fs.writeOk fallback_file then
      { attempts := [target, fallback_file],
        result := .ok (fallback_file, mkReport ts sys metadata) }
    else
      { attempts := [target, fallback_file],
        result := .error "fallback write failed" }

/-- Outcome of `main`: either `scan_directory` called `sys.exit(1)` (no
report, non-zero status, nothing written), or it returned records and
`save_metadata` ran. -/
inductive RunOutcome where
  | fatalInvalidDir
  | finished (trace : SaveTrace)
deriving Repr

/-- The `main` pipeline: scan, then save. -/
def runPipeline (d : Directory) (calculate_missing_bpm : Bool)
    (output_file : String) (fs : WriteFS) (ts sys : String) : RunOutcome :=
  match scan_directory d calculate_missing_bpm with
  | .error _ => .fatalInvalidDir
  | .ok metadata => .finished (save_metadata metadata output_file fs ts sys)

/-!
## The duplicate CLI implementation

`src/metadata_extractor.py` repeats the pipeline.  Its tag tables, record
construction and BPM block are textually identical to the backend copy
(only `print` diagnostics differ), so the embedded record logic reuses the
same table constants; the functions themselves are re-declared so that the
equivalence claim compares two declarations.  Its `scan_directory` walks
the tree twice: once to count eligible files, once to process them with an
`if .mp3 / elif .mp4|.m4a / else skip` dispatch.
-/

/-- `extract_mp3_metadata` of `src/metadata_extractor.py`. -/
def root_extract_mp3_metadata (f : AudioFile) (calculate_missing_bpm : Bool) :
    Record :=
  match f.mp3parse with
  | .error e => errRecord f.path e
  | .ok (info, tags) =>
    completeBpm f calculate_missing_bpm
      (mp3BaseFields f info ++ addTagFields tags mp3TagMapping)

/-- `extract_mp4_metadata` of `src/metadata_extractor.py`. -/
def root_extract_mp4_metadata (f : AudioFile) (calculate_missing_bpm : Bool) :
    Record :=
  match f.mp4parse with
  | .error e => errRecord f.path e
  | .ok (info, tags) =>
    match addMp4TagFields tags mp4TagMapping with
    | .error e => errRecord f.path e
    | .ok tagFields =>
      completeBpm f calculate_missing_bpm (mp4BaseFields f info ++ tagFields)

/-- `scan_directory` of `src/metadata_extractor.py`: count eligible files
in a first walk, return early when none, then re-walk and dispatch. -/
def root_scan_directory (d : Directory) (calculate_missing_bpm : Bool) :
    Except Unit (List Record) :=
  if d.isValid = false then .error () else
  let total_files := d.files.countP (fun f => isEligible f.name)
  if total_files = 0 then .ok [] else
  .ok (d.files.filterMap (fun f =>
    if strEndsWith (strLower f.name) ".mp3" then
      some (root_extract_mp3_metadata f calculate_missing_bpm)
    else if strEndsWith (strLower f.name) ".mp4" ||
        strEndsWith (strLower f.name) ".m4a" then
      some (root_extract_mp4_metadata f calculate_missing_bpm)
    else none))

/-- Two model files that coincide on everything the parsers read (path,
basename, container parses); the librosa decode/tempo outcome may differ. -/
def sameStatic (f g : AudioFile) : Prop :=
  f.path = g.path ∧ f.name = g.name ∧ f.mp3parse = g.mp3parse ∧
    f.mp4parse = g.mp4parse

/-!
## Concrete sample inputs

Model files used to evaluate the embedded pipeline at specific points.
-/

/-- Header info of a typical 3-minute 320 kbps stereo file. -/
def sampleInfo : StreamInfo :=
  { length := 180, bitrate := 320000, sample_rate := 44100, channels := 2 }

/-- An untagged MP3 whose backend tempo estimate rounds to zero. -/
def zeroTempoFile : AudioFile :=
  { path := "music/zero.mp3", name := "zero.mp3",
    mp3parse := .ok (sampleInfo, []),
    mp4parse := .error "not a MP4 file",
    decode := .ok 0 }

/-- An MP3 with no TBPM tag whose tempo estimate is 120. -/
def untaggedFile : AudioFile :=
  { path := "music/untagged.mp3", name := "untagged.mp3",
    mp3parse := .ok (sampleInfo, [("TIT2", "Song")]),
    mp4parse := .error "not a MP4 file",
    decode := .ok 120 }

/-- A corrupt file: the container parse raises. -/
def corruptFile : AudioFile :=
  { path := "music/corrupt.mp3", name := "corrupt.mp3",
    mp3parse := .error "failed to sync to MPEG frame",
    mp4parse := .error "failed to sync to MPEG frame",
    decode := .ok 95 }

/-- An MP4 that parses but holds an empty list under a probed identifier. -/
def emptyListMp4File : AudioFile :=
  { path := "music/empty.m4a", name := "empty.m4a",
    mp3parse := .error "not an MP3 file",
    mp4parse := .ok (sampleInfo, [("©nam", .vlist [])]),
    decode := .ok 100 }

/-- A non-audio file the scanner must skip. -/
def textFile : AudioFile :=
  { path := "music/notes.txt", name := "notes.txt",
    mp3parse := .error "not an MP3 file",
    mp4parse := .error "not an MP4 file",
    decode := .error "decode failure" }

/-- A small mixed directory: two eligible audio files, one ineligible. -/
def sampleDir : Directory :=
  { isValid := true, files := [untaggedFile, textFile, emptyListMp4File] }

/-- The same tree on a second run: the estimator outcomes differ, the
static container content does not. -/
def sampleDirSecondRun : Directory :=
  { isValid := true,
    files := [{ untaggedFile with decode := .ok 121 }, textFile,
      { emptyListMp4File with decode := .error "audioread failure" }] }

/-- An invalid root. -/
def missingDir : Directory := { isValid := false, files := [] }

/-- A filesystem on which every write succeeds. -/
def allWriteFS : WriteFS := { writeOk := fun _ => true }

/-- A filesystem on which only the bare default filename is writable. -/
def fallbackOnlyFS : WriteFS :=
  { writeOk := fun p => p == "audio_metadata.json" }

/-!
## Helper lemmas
-/

theorem getVal_append (l₁ l₂ : Record) (key : String) :
    getVal (l₁ ++ l₂) key =
      match getVal l₁ key with
      | some v => some v
      | none => getVal l₂ key := by
  induction l₁ with
  | nil => simp [getVal]
  | cons kv rest ih =>
    obtain ⟨k, v⟩ := kv
    by_cases h : k = key <;> simp [getVal, h, ih]

theorem getVal_append_none (l₁ l₂ : Record) (key : String)
    (h : getVal l₁ key = none) : getVal (l₁ ++ l₂) key = getVal l₂ key := by
  rw [getVal_append, h]

theorem getVal_append_some (l₁ l₂ : Record) (key : String) (v : Value)
    (h : getVal l₁ key = some v) : getVal (l₁ ++ l₂) key = some v := by
  rw [getVal_append, h]

theorem getVal_addTagFields_of_not_mem (tags : List (String × String))
    (mapping : List (String × List String)) (key : String)
    (h : key ∉ mapping.map Prod.fst) :
    getVal (addTagFields tags mapping) key = none := by
  induction mapping with
  | nil => simp [addTagFields, getVal]
  | cons kv rest ih =>
    obtain ⟨k, ids⟩ := kv
    simp only [List.map_cons, List.mem_cons, not_or] at h
    obtain ⟨hk, hrest⟩ := h
    cases hp : probeTag tags ids with
    | none => simpa [addTagFields, hp] using ih hrest
    | some v =>
      have hne : k ≠ key := fun hkk => hk hkk.symm
      simp [addTagFields, hp, getVal, hne, ih hrest]

theorem getVal_addTagFields_of_mem (tags : List (String × String))
    (mapping : List (String × List String)) (key : String) (ids : List String)
    (hmem : (key, ids) ∈ mapping) (hnd : (mapping.map Prod.fst).Nodup) :
    getVal (addTagFields tags mapping) key =
      (probeTag tags ids).map Value.vstr := by
  induction mapping with
  | nil => simp at hmem
  | cons kv rest ih =>
    obtain ⟨k, ids'⟩ := kv
    simp only [List.map_cons, List.nodup_cons] at hnd
    obtain ⟨hknotin, hndrest⟩ := hnd
    rcases List.mem_cons.mp hmem with heq | hmemrest
    · have hk : k = key := (Prod.mk.injEq _ _ _ _ ▸ heq.symm).1
      have hids : ids' = ids := (Prod.mk.injEq _ _ _ _ ▸ heq.symm).2
      subst hk hids
      cases hp : probeTag tags ids' with
      | none =>
        have : getVal (addTagFields tags rest) k = none :=
          getVal_addTagFields_of_not_mem tags rest k hknotin
        simp [addTagFields, hp, this]
      | some v => simp [addTagFields, hp, getVal]
    · have hkey_in : key ∈ rest.map Prod.fst :=
        List.mem_map.mpr ⟨(key, ids), hmemrest, rfl⟩
      have hne : k ≠ key := fun hkk => hknotin (hkk ▸ hkey_in)
      cases hp : probeTag tags ids' with
      | none => simpa [addTagFields, hp] using ih hmemrest hndrest
      | some v => simp [addTagFields, hp, getVal, hne, ih hmemrest hndrest]

theorem addMp4TagFields_ok_not_mem (tags : List (String × TagVal))
    (mapping : List (String × List String)) (key : String) :
    ∀ md, addMp4TagFields tags mapping = .ok md →
      key ∉ mapping.map Prod.fst → getVal md key = none := by
  induction mapping with
  | nil =>
    intro md hok _
    simp only [addMp4TagFields] at hok
    cases hok
    simp [getVal]
  | cons kv rest ih =>
    obtain ⟨k, ids⟩ := kv
    intro md hok h
    simp only [List.map_cons, List.mem_cons, not_or] at h
    obtain ⟨hk, hrest⟩ := h
    cases hp : probeTag tags ids with
    | none =>
      simp only [addMp4TagFields, hp] at hok
      exact ih md hok hrest
    | some tv =>
      cases hr : renderTagVal tv with
      | error e => simp [addMp4TagFields, hp, hr] at hok
      | ok v =>
        simp only [addMp4TagFields, hp, hr] at hok
        cases hrec : addMp4TagFields tags rest with
        | error e => rw [hrec] at hok; simp [Except.map] at hok
        | ok md' =>
          rw [hrec] at hok
          simp only [Except.map, Except.ok.injEq] at hok
          have hne : k ≠ key := fun hkk => hk hkk.symm
          rw [← hok]
          simp [getVal, hne, ih md' hrec hrest]

theorem addMp4TagFields_ok_mem (tags : List (String × TagVal))
    (mapping : List (String × List String)) (key : String) (ids : List String) :
    ∀ md, addMp4TagFields tags mapping = .ok md →
      (key, ids) ∈ mapping → (mapping.map Prod.fst).Nodup →
      getVal md key = (probedMp4Value tags ids).map Value.vstr := by
  induction mapping with
  | nil => intro md _ hmem _; simp at hmem
  | cons kv rest ih =>
    obtain ⟨k, ids'⟩ := kv
    intro md hok hmem hnd
    simp only [List.map_cons, List.nodup_cons] at hnd
    obtain ⟨hknotin, hndrest⟩ := hnd
    rcases List.mem_cons.mp hmem with heq | hmemrest
    · have hk : k = key := (Prod.mk.injEq _ _ _ _ ▸ heq.symm).1
      have hids : ids' = ids := (Prod.mk.injEq _ _ _ _ ▸ heq.symm).2
      subst hk hids
      cases hp : probeTag tags ids' with
      | none =>
        simp only [addMp4TagFields, hp] at hok
        have : getVal md k = none := addMp4TagFields_ok_not_mem tags rest k md hok hknotin
        simp [probedMp4Value, hp, this]
      | some tv =>
        cases hr : renderTagVal tv with
        | error e => simp [addMp4TagFields, hp, hr] at hok
        | ok v =>
          simp only [addMp4TagFields, hp, hr] at hok
          cases hrec : addMp4TagFields tags rest with
          | error e => rw [hrec] at hok; simp [Except.map] at hok
          | ok md' =>
            rw [hrec] at hok
            simp only [Except.map, Except.ok.injEq] at hok
            rw [← hok]
            simp [getVal, probedMp4Value, hp, hr]
    · have hkey_in : key ∈ rest.map Prod.fst :=
        List.mem_map.mpr ⟨(key, ids), hmemrest, rfl⟩
      have hne : k ≠ key := fun hkk => hknotin (hkk ▸ hkey_in)
      cases hp : probeTag tags ids' with
      | none =>
        simp only [addMp4TagFields, hp] at hok
        exact ih md hok hmemrest hndrest
      | some tv =>
        cases hr : renderTagVal tv with
        | error e => simp [addMp4TagFields, hp, hr] at hok
        | ok v =>
          simp only [addMp4TagFields, hp, hr] at hok
          cases hrec : addMp4TagFields tags rest with
          | error e => rw [hrec] at hok; simp [Except.map] at hok
          | ok md' =>
            rw [hrec] at hok
            simp only [Except.map, Except.ok.injEq] at hok
            rw [← hok]
            simp [getVal, hne, ih md' hrec hmemrest hndrest]

theorem mp3TagMapping_keys_nodup : (mp3TagMapping.map Prod.fst).Nodup := by
  decide

theorem mp4TagMapping_keys_nodup : (mp4TagMapping.map Prod.fst).Nodup := by
  decide

theorem getVal_mp3BaseFields (f : AudioFile) (info : StreamInfo) (key : String)
    (h : key ∉ ["file_path", "file_type", "duration", "bitrate",
      "sample_rate", "channels"]) :
    getVal (mp3BaseFields f info) key = none := by
  simp only [List.mem_cons, List.not_mem_nil, or_false, not_or] at h
  obtain ⟨h1, h2, h3, h4, h5, h6⟩ := h
  simp [mp3BaseFields, getVal, Ne.symm h1, Ne.symm h2, Ne.symm h3,
    Ne.symm h4, Ne.symm h5, Ne.symm h6]

theorem getVal_mp4BaseFields (f : AudioFile) (info : StreamInfo) (key : String)
    (h : key ∉ ["file_path", "file_type", "duration", "bitrate",
      "sample_rate", "channels"]) :
    getVal (mp4BaseFields f info) key = none := by
  simp only [List.mem_cons, List.not_mem_nil, or_false, not_or] at h
  obtain ⟨h1, h2, h3, h4, h5, h6⟩ := h
  simp [mp4BaseFields, getVal, Ne.symm h1, Ne.symm h2, Ne.symm h3,
    Ne.symm h4, Ne.symm h5, Ne.symm h6]

/-- The flag field of the BPM-completion step: with no pre-existing
`bpm_calculated` field, the step sets it exactly when the record lacked a
`bpm` field, the flag was on, and `calculate_bpm` returned a truthy
(nonzero, non-`None`) value. -/
theorem completeBpm_flag_iff (f : AudioFile) (c : Bool) (metadata : Record)
    (hnc : getVal metadata "bpm_calculated" = none) :
    getVal (completeBpm f c metadata) "bpm_calculated" = some (.vbool true) ↔
      (getVal metadata "bpm" = none ∧ c = true ∧
        ∃ b, calculate_bpm f = some b ∧ b ≠ 0) := by
  unfold completeBpm
  cases hb : getVal metadata "bpm" with
  | some v => simp [hb, hnc]
  | none =>
    cases c with
    | false => simp [hb, hnc]
    | true =>
      cases hcb : calculate_bpm f with
      | none => simp [hb, hcb, hnc]
      | some b =>
        by_cases hz : b = 0
        · simp [hb, hcb, hz, hnc]
        · simp [hb, hcb, hz, hnc, getVal_append, getVal]

/-- The value field of the BPM-completion step: when it fires, `bpm` is the
string form of the calculated value. -/
theorem completeBpm_bpm_val (f : AudioFile) (c : Bool) (metadata : Record)
    (b : ℤ) (hb : getVal metadata "bpm" = none) (hc : c = true)
    (hcb : calculate_bpm f = some b) (hz : b ≠ 0) :
    getVal (completeBpm f c metadata) "bpm" = some (.vstr (toString b)) := by
  unfold completeBpm
  subst hc
  simp [hb, hcb, hz, getVal_append, getVal]

/-- The executable rational floor agrees with the floor of the order
structure. -/
theorem rat_floor_eq (q : ℚ) : q.floor = ⌊q⌋ :=
  (Rat.floor_def' q).trans Rat.floor_def.symm

/-- `pyRound` never drops below the floor, hence is nonnegative on
nonnegative input. -/
theorem pyRound_nonneg (q : ℚ) (hq : 0 ≤ q) : 0 ≤ pyRound q := by
  have hf : (0 : ℤ) ≤ ⌊q⌋ := Int.floor_nonneg.mpr hq
  unfold pyRound
  rw [rat_floor_eq]
  split
  · exact hf
  · split
    · omega
    · split
      · exact hf
      · omega

/-- `pyRound` is positive strictly above one half. -/
theorem pyRound_pos (q : ℚ) (hq : 1/2 < q) : 0 < pyRound q := by
  have hq0 : (0 : ℚ) ≤ q := le_of_lt (lt_trans (by norm_num) hq)
  have hf : (0 : ℤ) ≤ ⌊q⌋ := Int.floor_nonneg.mpr hq0
  unfold pyRound
  rw [rat_floor_eq]
  rcases eq_or_lt_of_le hf with hf0 | hf1
  · have hr : ¬(q - (⌊q⌋ : ℚ) < 1/2) := by
      rw [← hf0]
      push_cast
      linarith
    have hr2 : 1/2 < q - (⌊q⌋ : ℚ) := by
      rw [← hf0]
      push_cast
      linarith
    simp only [hr, if_false, hr2, if_true]
    omega
  · split
    · omega
    · split
      · omega
      · split <;> omega

/-- With the flag off, neither extractor reads the librosa decode outcome:
the record depends only on the static part of the file model (MP3 case). -/
theorem extract_mp3_metadata_static (f g : AudioFile) (h : sameStatic f g) :
    extract_mp3_metadata f false = extract_mp3_metadata g false := by
  obtain ⟨hp, _, h3, _⟩ := h
  unfold extract_mp3_metadata completeBpm errRecord mp3BaseFields
  rw [hp, h3]
  cases g.mp3parse with
  | error e => rfl
  | ok pr => simp [Bool.and_false]

/-- With the flag off, neither extractor reads the librosa decode outcome
(MP4 case). -/
theorem extract_mp4_metadata_static (f g : AudioFile) (h : sameStatic f g) :
    extract_mp4_metadata f false = extract_mp4_metadata g false := by
  obtain ⟨hp, _, _, h4⟩ := h
  unfold extract_mp4_metadata completeBpm errRecord mp4BaseFields
  rw [hp, h4]
  cases g.mp4parse with
  | error e => rfl
  | ok pr => simp [Bool.and_false]

/-- On a valid root, `scan_directory` is one record per eligible file in
discovery order (the early return on an empty collection coincides with the
general case). -/
theorem scan_directory_eq_map (d : Directory) (c : Bool)
    (hv : d.isValid = true) :
    scan_directory d c =
      .ok ((d.files.filter (fun f => isEligible f.name)).map
        (fun f => if isMp3Name f.name then extract_mp3_metadata f c
          else extract_mp4_metadata f c)) := by
  unfold scan_directory
  rw [hv]
  rw [if_neg (by simp : ¬(true = false))]
  by_cases h0 : d.files.filter (fun f => isEligible f.name) = []
  · rw [h0]
    rfl
  · have hlen : ¬(((d.files.filter (fun f => isEligible f.name)).map
        (fun f => (f, isMp3Name f.name))).length = 0) := by
      simp [List.length_eq_zero, h0]
    rw [if_neg hlen]
    refine congrArg Except.ok ?_
    rw [List.map_map]
    apply List.map_congr_left
    intro f _
    simp only [Function.comp]

/-- Both extractors of the duplicate CLI copy are the same record function
as the backend copy. -/
theorem root_extract_mp3_eq :
    root_extract_mp3_metadata = extract_mp3_metadata := by
  funext f c
  unfold root_extract_mp3_metadata extract_mp3_metadata
  cases f.mp3parse with
  | error e => rfl
  | ok pr => rfl

theorem root_extract_mp4_eq :
    root_extract_mp4_metadata = extract_mp4_metadata := by
  funext f c
  unfold root_extract_mp4_metadata extract_mp4_metadata
  cases f.mp4parse with
  | error e => rfl
  | ok pr => rfl

/-- The duplicate CLI's `if .mp3 / elif .mp4|.m4a / else skip` walk produces
the same list as filtering the eligible names and dispatching on `.mp3`. -/
theorem root_dispatch_eq_filter_map (c : Bool) : ∀ l : List AudioFile,
    l.filterMap (fun f =>
      if strEndsWith (strLower f.name) ".mp3" then
        some (root_extract_mp3_metadata f c)
      else if strEndsWith (strLower f.name) ".mp4" ||
          strEndsWith (strLower f.name) ".m4a" then
        some (root_extract_mp4_metadata f c)
      else none)
    = (l.filter (fun f => isEligible f.name)).map
        (fun f => if isMp3Name f.name then extract_mp3_metadata f c
          else extract_mp4_metadata f c)
  | [] => rfl
  | a :: l => by
    have ih := root_dispatch_eq_filter_map c l
    rw [List.filterMap_cons, ih, List.filter_cons]
    by_cases h1 : strEndsWith (strLower a.name) ".mp3" = true
    · have he : isEligible a.name = true := by
        unfold isEligible
        rw [h1, Bool.true_or, Bool.true_or]
      have hm : isMp3Name a.name = true := h1
      rw [if_pos h1, if_pos he, List.map_cons, if_pos hm, root_extract_mp3_eq]
    · by_cases h2 :
        (strEndsWith (strLower a.name) ".mp4" ||
          strEndsWith (strLower a.name) ".m4a") = true
      · have he : isEligible a.name = true := by
          unfold isEligible
          rcases Bool.or_eq_true_iff.mp h2 with h | h
          · rw [h, Bool.or_true, Bool.true_or]
          · rw [h, Bool.or_true]
        have hm : ¬(isMp3Name a.name = true) := h1
        rw [if_neg h1, if_pos h2, if_pos he, List.map_cons, if_neg hm,
          root_extract_mp4_eq]
      · have h3 : strEndsWith (strLower a.name) ".mp3" = false :=
          Bool.eq_false_iff.mpr h1
        have h45 := Bool.or_eq_false_iff.mp (Bool.eq_false_iff.mpr h2)
        have he : ¬(isEligible a.name = true) := by
          unfold isEligible
          rw [h3, h45.1, h45.2]
          exact Bool.false_ne_true
        rw [if_neg h1, if_neg h2, if_neg he]

/-- A `Forall₂ sameStatic` pair of file lists yields the same filtered,
dispatched record list when tempo estimation is disabled. -/
theorem dispatch_static : ∀ (l₁ l₂ : List AudioFile),
    List.Forall₂ sameStatic l₁ l₂ →
    (l₁.filter (fun f => isEligible f.name)).map
      (fun f => if isMp3Name f.name then extract_mp3_metadata f false
        else extract_mp4_metadata f false)
    = (l₂.filter (fun f => isEligible f.name)).map
      (fun f => if isMp3Name f.name then extract_mp3_metadata f false
        else extract_mp4_metadata f false) := by
  intro l₁ l₂ h
  induction h with
  | nil => rfl
  | @cons a₁ a₂ t₁ t₂ hfg _ ih =>
    have hn : a₁.name = a₂.name := hfg.2.1
    rw [List.filter_cons, List.filter_cons, hn]
    by_cases he : isEligible a₂.name
    · have hφ : (if isMp3Name a₁.name then extract_mp3_metadata a₁ false
          else extract_mp4_metadata a₁ false)
        = (if isMp3Name a₂.name then extract_mp3_metadata a₂ false
          else extract_mp4_metadata a₂ false) := by
        rw [hn]
        by_cases hm : isMp3Name a₂.name
        · simp [hm, extract_mp3_metadata_static a₁ a₂ hfg]
        · simp [hm, extract_mp4_metadata_static a₁ a₂ hfg]
      simp [he, hφ, ih]
    · simp [he, ih]

/-- Equation lemma: `extract_mp3_metadata` on a successfully parsed file. -/
theorem extract_mp3_metadata_ok (f : AudioFile) (c : Bool) (info : StreamInfo)
    (tags : List (String × String)) (hp : f.mp3parse = .ok (info, tags)) :
    extract_mp3_metadata f c =
      completeBpm f c (mp3BaseFields f info ++ addTagFields tags mp3TagMapping) := by
  unfold extract_mp3_metadata
  rw [hp]

/-- Equation lemma: `extract_mp3_metadata` on a failed parse. -/
theorem extract_mp3_metadata_err (f : AudioFile) (c : Bool) (e : String)
    (hp : f.mp3parse = .error e) :
    extract_mp3_metadata f c = errRecord f.path e := by
  unfold extract_mp3_metadata
  rw [hp]

/-- Equation lemma: `extract_mp4_metadata` on a successfully parsed file,
before the tag-probing phase is resolved. -/
theorem extract_mp4_metadata_ok (f : AudioFile) (c : Bool) (info : StreamInfo)
    (tags : List (String × TagVal)) (hp : f.mp4parse = .ok (info, tags)) :
    extract_mp4_metadata f c =
      match addMp4TagFields tags mp4TagMapping with
      | .error e => errRecord f.path e
      | .ok tagFields => completeBpm f c (mp4BaseFields f info ++ tagFields) := by
  unfold extract_mp4_metadata
  rw [hp]

/-- Equation lemma: `extract_mp4_metadata` on a failed parse. -/
theorem extract_mp4_metadata_err (f : AudioFile) (c : Bool) (e : String)
    (hp : f.mp4parse = .error e) :
    extract_mp4_metadata f c = errRecord f.path e := by
  unfold extract_mp4_metadata
  rw [hp]

/-- `extract_mp3_metadata` sets `bpm_calculated` exactly when the parse
succeeded, the probed tag mapping lacked `bpm`, the flag was on, and
`calculate_bpm` returned a truthy value. -/
theorem extract_mp3_flag_iff (f : AudioFile) (c : Bool) :
    getVal (extract_mp3_metadata f c) "bpm_calculated" = some (.vbool true) ↔
      ∃ info tags, f.mp3parse = .ok (info, tags) ∧
        getVal (addTagFields tags mp3TagMapping) "bpm" = none ∧ c = true ∧
        ∃ b, calculate_bpm f = some b ∧ b ≠ 0 := by
  cases hp : f.mp3parse with
  | error e =>
    rw [extract_mp3_metadata_err f c e hp]
    constructor
    · intro h
      exact absurd h (by simp [errRecord, getVal])
    · rintro ⟨info, tags, heq, -⟩
      exact Except.noConfusion heq
  | ok pr =>
    obtain ⟨info, tags⟩ := pr
    have hmd_bc : getVal (mp3BaseFields f info ++ addTagFields tags mp3TagMapping)
        "bpm_calculated" = none :=
      (getVal_append_none _ _ _ (getVal_mp3BaseFields f info _ (by decide))).trans
        (getVal_addTagFields_of_not_mem tags mp3TagMapping _ (by decide))
    have hmd_bpm : getVal (mp3BaseFields f info ++ addTagFields tags mp3TagMapping)
        "bpm" = getVal (addTagFields tags mp3TagMapping) "bpm" :=
      getVal_append_none _ _ _ (getVal_mp3BaseFields f info _ (by decide))
    rw [extract_mp3_metadata_ok f c info tags hp,
      completeBpm_flag_iff f c _ hmd_bc, hmd_bpm]
    constructor
    · rintro ⟨h1, h2, h3⟩
      exact ⟨info, tags, rfl, h1, h2, h3⟩
    · rintro ⟨info2, tags2, heq, h1, h2, h3⟩
      injection heq with heq2
      injection heq2 with hinfo htags
      subst hinfo
      subst htags
      exact ⟨h1, h2, h3⟩

/-- When `extract_mp3_metadata` marks `bpm_calculated`, the `bpm` field is
the string form of the calculated value. -/
theorem extract_mp3_bpm_val (f : AudioFile) (c : Bool) (b : ℤ)
    (hflag : getVal (extract_mp3_metadata f c) "bpm_calculated" = some (.vbool true))
    (hcb : calculate_bpm f = some b) :
    getVal (extract_mp3_metadata f c) "bpm" = some (.vstr (toString b)) := by
  rcases (extract_mp3_flag_iff f c).mp hflag with
    ⟨info, tags, hp, h1, h2, b2, hcb2, hz2⟩
  have hb : b2 = b := by
    rw [hcb] at hcb2
    injection hcb2 with h
    exact h.symm
  subst hb
  have hmd_bpm : getVal (mp3BaseFields f info ++ addTagFields tags mp3TagMapping)
      "bpm" = getVal (addTagFields tags mp3TagMapping) "bpm" :=
    getVal_append_none _ _ _ (getVal_mp3BaseFields f info _ (by decide))
  rw [extract_mp3_metadata_ok f c info tags hp]
  exact completeBpm_bpm_val f c _ b2 (hmd_bpm.trans h1) h2 hcb2 hz2

/-- MP4 version of the `bpm_calculated` characterization: the tag-probing
phase must also have completed without an `IndexError`. -/
theorem extract_mp4_flag_iff (f : AudioFile) (c : Bool) :
    getVal (extract_mp4_metadata f c) "bpm_calculated" = some (.vbool true) ↔
      ∃ info tags md4, f.mp4parse = .ok (info, tags) ∧
        addMp4TagFields tags mp4TagMapping = .ok md4 ∧
        getVal md4 "bpm" = none ∧ c = true ∧
        ∃ b, calculate_bpm f = some b ∧ b ≠ 0 := by
  cases hp : f.mp4parse with
  | error e =>
    rw [extract_mp4_metadata_err f c e hp]
    constructor
    · intro h
      exact absurd h (by simp [errRecord, getVal])
    · rintro ⟨info, tags, md4, heq, -⟩
      exact Except.noConfusion heq
  | ok pr =>
    obtain ⟨info, tags⟩ := pr
    rw [extract_mp4_metadata_ok f c info tags hp]
    cases h4 : addMp4TagFields tags mp4TagMapping with
    | error e =>
      constructor
      · intro h
        exact absurd h (by simp [errRecord, getVal])
      · rintro ⟨info2, tags2, md4, heq, hok, -⟩
        injection heq with heq2
        injection heq2 with hinfo htags
        subst htags
        rw [h4] at hok
        exact Except.noConfusion hok
    | ok md4 =>
      have hmd_bc : getVal (mp4BaseFields f info ++ md4) "bpm_calculated" = none :=
        (getVal_append_none _ _ _ (getVal_mp4BaseFields f info _ (by decide))).trans
          (addMp4TagFields_ok_not_mem tags mp4TagMapping _ md4 h4 (by decide))
      have hmd_bpm : getVal (mp4BaseFields f info ++ md4) "bpm" =
          getVal md4 "bpm" :=
        getVal_append_none _ _ _ (getVal_mp4BaseFields f info _ (by decide))
      rw [completeBpm_flag_iff f c _ hmd_bc, hmd_bpm]
      constructor
      · rintro ⟨h1, h2, h3⟩
        exact ⟨info, tags, md4, rfl, h4, h1, h2, h3⟩
      · rintro ⟨info2, tags2, md42, heq, hok, h1, h2, h3⟩
        injection heq with heq2
        injection heq2 with hinfo htags
        subst hinfo
        subst htags
        rw [h4] at hok
        injection hok with hmd
        subst hmd
        exact ⟨h1, h2, h3⟩

/-- When `extract_mp4_metadata` marks `bpm_calculated`, the `bpm` field is
the string form of the calculated value. -/
theorem extract_mp4_bpm_val (f : AudioFile) (c : Bool) (b : ℤ)
    (hflag : getVal (extract_mp4_metadata f c) "bpm_calculated" = some (.vbool true))
    (hcb : calculate_bpm f = some b) :
    getVal (extract_mp4_metadata f c) "bpm" = some (.vstr (toString b)) := by
  rcases (extract_mp4_flag_iff f c).mp hflag with
    ⟨info, tags, md4, hp, h4, h1, h2, b2, hcb2, hz2⟩
  have hb : b2 = b := by
    rw [hcb] at hcb2
    injection hcb2 with h
    exact h.symm
  subst hb
  have hmd_bpm : getVal (mp4BaseFields f info ++ md4) "bpm" =
      getVal md4 "bpm" :=
    getVal_append_none _ _ _ (getVal_mp4BaseFields f info _ (by decide))
  rw [extract_mp4_metadata_ok f c info tags hp, h4]
  exact completeBpm_bpm_val f c _ b2 (hmd_bpm.trans h1) h2 hcb2 hz2

/-- The BPM-completion step only ever appends fields. -/
theorem completeBpm_extends (f : AudioFile) (c : Bool) (metadata : Record) :
    ∃ rest, completeBpm f c metadata = metadata ++ rest := by
  unfold completeBpm
  by_cases hcond : ((getVal metadata "bpm").isNone && c) = true
  · rw [if_pos hcond]
    cases hcb : calculate_bpm f with
    | none => exact ⟨[], (List.append_nil _).symm⟩
    | some b =>
      show ∃ rest,
        (if b ≠ 0 then
          metadata ++ [("bpm", Value.vstr (toString b)),
            ("bpm_calculated", Value.vbool true)]
        else metadata) = metadata ++ rest
      by_cases hz : b ≠ 0
      · rw [if_pos hz]
        exact ⟨_, rfl⟩
      · rw [if_neg hz]
        exact ⟨[], (List.append_nil _).symm⟩
  · rw [if_neg hcond]
    exact ⟨[], (List.append_nil _).symm⟩

/-- Concrete evaluation: rounding an estimate of exactly zero gives zero. -/
theorem pyRound_zero : pyRound 0 = 0 := by
  unfold pyRound
  rw [rat_floor_eq]
  norm_num

/-- Concrete evaluation: rounding an integral estimate is the identity. -/
theorem pyRound_120 : pyRound 120 = 120 := by
  unfold pyRound
  rw [rat_floor_eq]
  norm_num

/-- The zero-estimate file gets BPM value `0` from `calculate_bpm`. -/
theorem calc_zero : calculate_bpm zeroTempoFile = some 0 := by
  have hd : zeroTempoFile.decode = .ok 0 := rfl
  unfold calculate_bpm
  rw [hd]
  exact congrArg some pyRound_zero

/-- The 120-estimate file gets BPM value `120` from `calculate_bpm`. -/
theorem calc_120 : calculate_bpm untaggedFile = some 120 := by
  have hd : untaggedFile.decode = .ok 120 := rfl
  unfold calculate_bpm
  rw [hd]
  exact congrArg some pyRound_120

/-- Whatever `save_metadata` reports success with is the assembled report. -/
theorem save_metadata_result_report (md : List Record) (out : String)
    (fs : WriteFS) (ts sy : String) (p : String) (r : Report)
    (h : (save_metadata md out fs ts sy).result = .ok (p, r)) :
    r = mkReport ts sy md := by
  unfold save_metadata at h
  by_cases h1 : fs.writeOk (normpath out) = true
  · rw [if_pos h1] at h
    injection h with h2
    injection h2 with hq hr
    exact hr.symm
  · rw [if_neg h1] at h
    by_cases h2 : fs.writeOk (basename (normpath out)) = true
    · rw [if_pos h2] at h
      injection h with h3
      injection h3 with hq hr
      exact hr.symm
    · rw [if_neg h2] at h
      exact Except.noConfusion h

/-!
## Claims
-/

/-- Claim C1, counterexample to the claim as stated: on an MP3 file that
parses with no TBPM tag, with the compute-missing-tempo flag set, and on
which the Tempo Estimator succeeds returning the value `0`, the File
Extractor does not set `bpm_calculated` — the code tests `if bpm:`
(Python truthiness), so a returned value of zero is treated like a
failure, refuting the "if and only if ... the Tempo Estimator succeeded
(returned a value)" direction. -/
theorem C1_counterexample :
    zeroTempoFile.mp3parse = .ok (sampleInfo, []) ∧
    getVal (addTagFields [] mp3TagMapping) "bpm" = none ∧
    calculate_bpm zeroTempoFile = some 0 ∧
    getVal (extract_mp3_metadata zeroTempoFile true) "bpm_calculated" = none := by
  refine ⟨rfl, by decide, calc_zero, ?_⟩
  rw [extract_mp3_metadata_ok zeroTempoFile true sampleInfo [] rfl]
  unfold completeBpm
  rw [calc_zero]
  decide

/-- Claim C1 (amended): each extractor sets `bpm_calculated = true` iff
container parsing succeeded (for MP4, including the tag-probing loop), the
resulting tag mapping lacked a `bpm` field, the compute-missing-tempo flag
was set, and the Tempo Estimator returned a nonzero value (Python
truthiness of `if bpm:`; a value of `0` is treated as failure); and
whenever `bpm_calculated` is set, the `bpm` field is the string form of
the estimator result. -/
theorem C1_amended (f : AudioFile) (c : Bool) :
    (getVal (extract_mp3_metadata f c) "bpm_calculated" = some (.vbool true) ↔
      ∃ info tags, f.mp3parse = .ok (info, tags) ∧
        getVal (addTagFields tags mp3TagMapping) "bpm" = none ∧ c = true ∧
        ∃ b, calculate_bpm f = some b ∧ b ≠ 0) ∧
    (getVal (extract_mp4_metadata f c) "bpm_calculated" = some (.vbool true) ↔
      ∃ info tags md4, f.mp4parse = .ok (info, tags) ∧
        addMp4TagFields tags mp4TagMapping = .ok md4 ∧
        getVal md4 "bpm" = none ∧ c = true ∧
        ∃ b, calculate_bpm f = some b ∧ b ≠ 0) ∧
    (∀ b, calculate_bpm f = some b →
      (getVal (extract_mp3_metadata f c) "bpm_calculated" = some (.vbool true) →
        getVal (extract_mp3_metadata f c) "bpm" = some (.vstr (toString b))) ∧
      (getVal (extract_mp4_metadata f c) "bpm_calculated" = some (.vbool true) →
        getVal (extract_mp4_metadata f c) "bpm" = some (.vstr (toString b)))) :=
  ⟨extract_mp3_flag_iff f c, extract_mp4_flag_iff f c,
    fun b hcb =>
      ⟨fun hf => extract_mp3_bpm_val f c b hf hcb,
       fun hf => extract_mp4_bpm_val f c b hf hcb⟩⟩

/-- Claim C1, witness: on a parsed MP3 with no TBPM tag, flag set, and a
nonzero estimate of 120, the flag is set and `bpm` is `"120"`. -/
theorem C1_witness :
    getVal (extract_mp3_metadata untaggedFile true) "bpm_calculated" =
      some (.vbool true) ∧
    getVal (extract_mp3_metadata untaggedFile true) "bpm" =
      some (.vstr (toString (120 : ℤ))) := by
  have h := C1_amended untaggedFile true
  have hflag := h.1.mpr
    ⟨sampleInfo, [("TIT2", "Song")], rfl, by decide, rfl, 120, calc_120, by decide⟩
  exact ⟨hflag, (h.2.2 120 calc_120).1 hflag⟩

/-- Claim C2, counterexample to the claim as stated: on a decodable input
whose backend tempo estimate is exactly `0`, `calculate_bpm` returns the
value `0` — neither `None` nor a positive integer — because the code
returns `round(tempo)` with no positivity guard. -/
theorem C2_counterexample :
    ¬(calculate_bpm zeroTempoFile = none ∨
      ∃ b, calculate_bpm zeroTempoFile = some b ∧ 0 < b) := by
  rintro (h | ⟨b, hb, hpos⟩)
  · rw [calc_zero] at h
    exact Option.noConfusion h
  · rw [calc_zero] at hb
    injection hb with h
    rw [← h] at hpos
    exact lt_irrefl 0 hpos

/-- Claim C2 (amended): `calculate_bpm` is total (never raises): it
returns no value exactly when decoding/estimation raised, and otherwise
returns the Python-rounded backend estimate, which is nonnegative for a
nonnegative estimate and positive whenever the estimate exceeds one half —
but it returns `0` (not `None`) when the backend estimate is at most one
half. -/
theorem C2_amended (f : AudioFile) :
    (∀ e, f.decode = .error e → calculate_bpm f = none) ∧
    (∀ t, f.decode = .ok t → calculate_bpm f = some (pyRound t) ∧
      (0 ≤ t → 0 ≤ pyRound t) ∧ (1/2 < t → 0 < pyRound t)) := by
  constructor
  · intro e he
    unfold calculate_bpm
    rw [he]
  · intro t ht
    refine ⟨?_, fun h0 => pyRound_nonneg t h0, fun hh => pyRound_pos t hh⟩
    unfold calculate_bpm
    rw [ht]

/-- Claim C2, witness: at a decode outcome of 120, `calculate_bpm`
returns the positive rounded value. -/
theorem C2_witness :
    calculate_bpm untaggedFile = some (pyRound 120) ∧ 0 < pyRound 120 := by
  have h := (C2_amended untaggedFile).2 120 rfl
  exact ⟨h.1, h.2.2 (by norm_num)⟩

/-- Claim C3: on any failure to open, parse headers, or read tags, the
per-file extraction returns a record whose only populated fields are
`file_path` and `error` (the underlying message), it never raises (the
embedded functions are total), and no tempo estimation is attempted — the
result on such a file is independent of the librosa decode outcome. -/
theorem C3_error_isolation (f : AudioFile) (c : Bool) (e : String) :
    (f.mp3parse = .error e → extract_mp3_metadata f c =
      [("file_path", .vstr f.path), ("error", .vstr e)]) ∧
    (f.mp4parse = .error e → extract_mp4_metadata f c =
      [("file_path", .vstr f.path), ("error", .vstr e)]) ∧
    (∀ info tags, f.mp4parse = .ok (info, tags) →
      addMp4TagFields tags mp4TagMapping = .error e →
      extract_mp4_metadata f c =
        [("file_path", .vstr f.path), ("error", .vstr e)]) ∧
    (∀ g, sameStatic f g → f.mp3parse = .error e →
      extract_mp3_metadata g c = extract_mp3_metadata f c) := by
  refine ⟨fun hp => extract_mp3_metadata_err f c e hp,
    fun hp => extract_mp4_metadata_err f c e hp, ?_, ?_⟩
  · intro info tags hp h4
    rw [extract_mp4_metadata_ok f c info tags hp, h4]
    rfl
  · intro g hg hp
    have hg3 : g.mp3parse = .error e := by
      rw [← hg.2.2.1]
      exact hp
    rw [extract_mp3_metadata_err g c e hg3, extract_mp3_metadata_err f c e hp,
      hg.1]

/-- Claim C3, witness: a corrupt MP3 yields exactly the two-field error
record. -/
theorem C3_witness :
    extract_mp3_metadata corruptFile true =
      [("file_path", .vstr "music/corrupt.mp3"),
       ("error", .vstr "failed to sync to MPEG frame")] :=
  (C3_error_isolation corruptFile true "failed to sync to MPEG frame").1 rfl

/-- Claim C4: over a valid root, `scan_directory` returns exactly one
record per eligible file (extension case-insensitively `.mp3`/`.mp4`/
`.m4a`), in discovery order, and any report `save_metadata` writes from
those records has `file_count` equal to that number; with zero eligible
files this degenerates to a successful empty result. -/
theorem C4_scan_count (d : Directory) (c : Bool) (out : String) (fs : WriteFS)
    (ts sy : String) (hv : d.isValid = true) :
    ∃ records, scan_directory d c = .ok records ∧
      records = (d.files.filter (fun f => isEligible f.name)).map
        (fun f => if isMp3Name f.name then extract_mp3_metadata f c
          else extract_mp4_metadata f c) ∧
      records.length = (d.files.filter (fun f => isEligible f.name)).length ∧
      ∀ p r, (save_metadata records out fs ts sy).result = .ok (p, r) →
        r.file_count = (d.files.filter (fun f => isEligible f.name)).length := by
  refine ⟨_, scan_directory_eq_map d c hv, rfl, List.length_map _ _, ?_⟩
  intro p r hres
  have hr := save_metadata_result_report _ out fs ts sy p r hres
  rw [hr]
  show (List.map _ _).length = _
  exact List.length_map _ _

/-- Claim C4, witness: the mixed sample directory (two eligible files, one
ineligible) yields exactly two records. -/
theorem C4_witness :
    sampleDir.isValid = true ∧
    ∃ records, scan_directory sampleDir true = .ok records ∧
      records.length = 2 := by
  refine ⟨rfl, ?_⟩
  obtain ⟨records, hscan, -, hlen, -⟩ :=
    C4_scan_count sampleDir true "audio_metadata.json" allWriteFS "ts" "sys" rfl
  refine ⟨records, hscan, ?_⟩
  rw [hlen]
  decide

/-- Claim C5: on a root that is not a valid directory, `scan_directory`
terminates the run (`sys.exit(1)`, the fatal outcome) and the pipeline
produces no report — `save_metadata` is never reached. -/
theorem C5_invalid_root (d : Directory) (c : Bool) (out : String)
    (fs : WriteFS) (ts sy : String) (hv : d.isValid = false) :
    scan_directory d c = .error () ∧
    runPipeline d c out fs ts sy = .fatalInvalidDir := by
  have h1 : scan_directory d c = .error () := by
    unfold scan_directory
    rw [hv]
    rfl
  refine ⟨h1, ?_⟩
  unfold runPipeline
  rw [h1]

/-- Claim C5, witness: the missing root exits fatally with no report. -/
theorem C5_witness :
    scan_directory missingDir true = .error () ∧
    runPipeline missingDir true "audio_metadata.json" allWriteFS "ts" "sys" =
      .fatalInvalidDir :=
  C5_invalid_root missingDir true "audio_metadata.json" allWriteFS "ts" "sys" rfl

/-- Claim C6: each logical tag field of the tag mapping is produced by
probing that field's fixed ordered identifier list, first present
identifier wins, and a list-valued tag stores the stringified first
element (`probedMp4Value`); moreover the returned record of a successfully
parsed file is exactly the structural fields followed by the probed tag
fields, extended only by the optional BPM-completion fields. -/
theorem C6_probe_first_match (tags3 : List (String × String))
    (tags4 : List (String × TagVal)) (key : String) (ids : List String)
    (f : AudioFile) (c : Bool) :
    ((key, ids) ∈ mp3TagMapping →
      getVal (addTagFields tags3 mp3TagMapping) key =
        (probeTag tags3 ids).map Value.vstr) ∧
    ((key, ids) ∈ mp4TagMapping → ∀ md4,
      addMp4TagFields tags4 mp4TagMapping = .ok md4 →
      getVal md4 key = (probedMp4Value tags4 ids).map Value.vstr) ∧
    (∀ info tags, f.mp3parse = .ok (info, tags) → ∃ rest,
      extract_mp3_metadata f c =
        (mp3BaseFields f info ++ addTagFields tags mp3TagMapping) ++ rest) ∧
    (∀ info tags md4, f.mp4parse = .ok (info, tags) →
      addMp4TagFields tags mp4TagMapping = .ok md4 → ∃ rest,
      extract_mp4_metadata f c = (mp4BaseFields f info ++ md4) ++ rest) := by
  refine ⟨fun hmem => getVal_addTagFields_of_mem tags3 mp3TagMapping key ids
      hmem mp3TagMapping_keys_nodup,
    fun hmem md4 hok => addMp4TagFields_ok_mem tags4 mp4TagMapping key ids md4
      hok hmem mp4TagMapping_keys_nodup, ?_, ?_⟩
  · intro info tags hp
    obtain ⟨rest, hrest⟩ :=
      completeBpm_extends f c (mp3BaseFields f info ++ addTagFields tags mp3TagMapping)
    exact ⟨rest, by rw [extract_mp3_metadata_ok f c info tags hp]; exact hrest⟩
  · intro info tags md4 hp hok
    obtain ⟨rest, hrest⟩ := completeBpm_extends f c (mp4BaseFields f info ++ md4)
    exact ⟨rest, by rw [extract_mp4_metadata_ok f c info tags hp, hok]; exact hrest⟩

/-- Claim C6, witness: with both a primary and a legacy year tag present,
the primary wins; with both MP4 genre identifiers present, the first one
(`©gen`, a list) wins and its first element is stored. -/
theorem C6_witness :
    getVal (addTagFields [("TYER", "1999"), ("TDRC", "2021")] mp3TagMapping)
      "year" = some (.vstr "2021") ∧
    ∀ md4, addMp4TagFields [("gnre", .vscalar "17"), ("©gen", .vlist ["Rock"])]
      mp4TagMapping = .ok md4 → getVal md4 "genre" = some (.vstr "Rock") := by
  constructor
  · rw [(C6_probe_first_match [("TYER", "1999"), ("TDRC", "2021")] []
      "year" ["TDRC", "TYER"] zeroTempoFile true).1 (by decide)]
    decide
  · intro md4 hok
    rw [(C6_probe_first_match []
      [("gnre", .vscalar "17"), ("©gen", .vlist ["Rock"])]
      "genre" ["©gen", "gnre"] zeroTempoFile true).2.1 (by decide) md4 hok]
    decide

/-- Claim C7: `save_metadata` attempts the primary target; on success no
fallback write occurs; on failure it attempts exactly one fallback write
(current working directory, same base filename), whose failure is fatal
(surfaced, not swallowed). -/
theorem C7_fallback_write (md : List Record) (out : String) (fs : WriteFS)
    (ts sy : String) :
    (fs.writeOk (normpath out) = true →
      (save_metadata md out fs ts sy).attempts = [normpath out] ∧
      (save_metadata md out fs ts sy).result =
        .ok (normpath out, mkReport ts sy md)) ∧
    (fs.writeOk (normpath out) = false →
      (save_metadata md out fs ts sy).attempts =
        [normpath out, basename (normpath out)] ∧
      (fs.writeOk (basename (normpath out)) = true →
        (save_metadata md out fs ts sy).result =
          .ok (basename (normpath out), mkReport ts sy md)) ∧
      (fs.writeOk (basename (normpath out)) = false →
        (save_metadata md out fs ts sy).result =
          .error "fallback write failed")) := by
  constructor
  · intro h1
    unfold save_metadata
    rw [if_pos h1]
    exact ⟨rfl, rfl⟩
  · intro h1
    have h1' : ¬(fs.writeOk (normpath out) = true) := by
      rw [h1]
      exact Bool.false_ne_true
    refine ⟨?_, fun h2 => ?_, fun h2 => ?_⟩
    · unfold save_metadata
      by_cases h2 : fs.writeOk (basename (normpath out)) = true
      · rw [if_neg h1', if_pos h2]
      · rw [if_neg h1', if_neg h2]
    · unfold save_metadata
      rw [if_neg h1', if_pos h2]
    · unfold save_metadata
      have h2' : ¬(fs.writeOk (basename (normpath out)) = true) := by
        rw [h2]
        exact Bool.false_ne_true
      rw [if_neg h1', if_neg h2']

/-- Claim C7, witness: on a filesystem where only the bare default
filename is writable, the primary write fails, exactly the primary and the
fallback are attempted, and the fallback succeeds. -/
theorem C7_witness :
    fallbackOnlyFS.writeOk (normpath "out/audio_metadata.json") = false ∧
    (save_metadata [] "out/audio_metadata.json" fallbackOnlyFS "ts" "sys").attempts
      = [normpath "out/audio_metadata.json",
         basename (normpath "out/audio_metadata.json")] ∧
    (save_metadata [] "out/audio_metadata.json" fallbackOnlyFS "ts" "sys").result
      = .ok (basename (normpath "out/audio_metadata.json"),
          mkReport "ts" "sys" []) := by
  have h := (C7_fallback_write [] "out/audio_metadata.json" fallbackOnlyFS
    "ts" "sys").2 (by decide)
  exact ⟨by decide, h.1, h.2.1 (by decide)⟩

/-- Claim C8: with tempo estimation disabled, two runs over the same
static tree (same paths, names and container parses; the librosa decode
outcomes may differ between runs) produce identical record sequences, so
the assembled reports differ at most in `timestamp` and `system`. -/
theorem C8_idempotent_no_bpm (d₁ d₂ : Directory) (ts₁ ts₂ sy₁ sy₂ : String)
    (hv : d₁.isValid = d₂.isValid)
    (hf : List.Forall₂ sameStatic d₁.files d₂.files) :
    scan_directory d₁ false = scan_directory d₂ false ∧
    ∀ md₁ md₂, scan_directory d₁ false = .ok md₁ →
      scan_directory d₂ false = .ok md₂ →
      (mkReport ts₁ sy₁ md₁).metadata = (mkReport ts₂ sy₂ md₂).metadata ∧
      (mkReport ts₁ sy₁ md₁).file_count = (mkReport ts₂ sy₂ md₂).file_count := by
  have hscan : scan_directory d₁ false = scan_directory d₂ false := by
    cases hv2 : d₂.isValid with
    | false =>
      have hv1 : d₁.isValid = false := by rw [hv, hv2]
      unfold scan_directory
      rw [hv1, hv2]
      rfl
    | true =>
      have hv1 : d₁.isValid = true := by rw [hv, hv2]
      rw [scan_directory_eq_map d₁ false hv1, scan_directory_eq_map d₂ false hv2]
      exact congrArg Except.ok (dispatch_static d₁.files d₂.files hf)
  refine ⟨hscan, fun md₁ md₂ h1 h2 => ?_⟩
  rw [hscan, h2] at h1
  injection h1 with h3
  subst h3
  exact ⟨rfl, rfl⟩

/-- Claim C8, witness: the sample directory and its second-run variant
(different estimator outcomes, same static content) scan identically with
estimation disabled. -/
theorem C8_witness :
    scan_directory sampleDir false = scan_directory sampleDirSecondRun false := by
  have hf : List.Forall₂ sameStatic sampleDir.files sampleDirSecondRun.files :=
    .cons ⟨rfl, rfl, rfl, rfl⟩
      (.cons ⟨rfl, rfl, rfl, rfl⟩ (.cons ⟨rfl, rfl, rfl, rfl⟩ .nil))
  exact (C8_idempotent_no_bpm sampleDir sampleDirSecondRun
    "t1" "t2" "s1" "s2" rfl hf).1

/-- Claim C9: an MP4 file that parses structurally but carries an empty
list under a probed identifier makes the unguarded `value[0]` raise inside
the `try`, so the extractor returns the error-only record and the
structural fields are lost. -/
theorem C9_empty_list_tag_error :
    emptyListMp4File.mp4parse = .ok (sampleInfo, [("©nam", TagVal.vlist [])]) ∧
    extract_mp4_metadata emptyListMp4File true =
      [("file_path", .vstr "music/empty.m4a"),
       ("error", .vstr "list index out of range")] :=
  ⟨rfl, by decide⟩

/-- Claim C10: the two duplicate pipeline implementations are equivalent:
for every directory tree and flag value the root-level `scan_directory`
returns the same record sequence as the backend one, and the two
extractor pairs are the same functions. -/
theorem C10_duplicate_equivalent (d : Directory) (c : Bool) :
    root_scan_directory d c = scan_directory d c ∧
    root_extract_mp3_metadata = extract_mp3_metadata ∧
    root_extract_mp4_metadata = extract_mp4_metadata := by
  refine ⟨?_, root_extract_mp3_eq, root_extract_mp4_eq⟩
  cases hv : d.isValid with
  | false =>
    unfold root_scan_directory scan_directory
    rw [hv]
    rfl
  | true =>
    rw [scan_directory_eq_map d c hv]
    unfold root_scan_directory
    rw [hv, if_neg (by simp : ¬(true = false))]
    by_cases h0 : d.files.countP (fun f => isEligible f.name) = 0
    · rw [if_pos h0]
      have hfil : d.files.filter (fun f => isEligible f.name) = [] := by
        rw [List.countP_eq_length_filter] at h0
        exact List.length_eq_zero.mp h0
      rw [hfil]
      rfl
    · rw [if_neg h0, root_dispatch_eq_filter_map]

end Freddie
